import Mathlib

/- Shallow embedding of the neupy repository fragments under src/ and of its
   network-surgery subsystem.  The surgery module itself is not part of src/
   (only its tests are), so its operations are modelled from the specification,
   following the arena representation the spec recommends in its design notes:
   layers are records indexed by stable identifiers, and the relate_to and
   relate_from topology links are optional identifiers.  Where the spec's prose
   conflicts with the repository's own tests in src/tests/sugrery/test_surgery.py,
   the tests are taken as the authority and the deviation is documented on the
   definition. -/

namespace Neupy

/-- Python exception kinds raised by the embedded code. -/
inductive PyError
  | typeError
  | valueError
  | notTrainedException
deriving DecidableEq, Repr

/-- Layer kinds appearing in the surgery subsystem and its tests. -/
inductive LayerKind
  | input
  | sigmoid
  | relu
  | softmax
  | cutLine
deriving DecidableEq, Repr

/-- Modelled from the spec: a Layer (spec section 3) — declared output shape
(`size`), an optionally declared input shape (`inSize`, known only for Input
layers), opaque trained parameter state (`weight`), and the two topology
relations `relate_to` / `relate_from` stored as optional identifiers into the
arena.  A `CutLine` marker is a layer of kind `cutLine` with zero shape and no
parameter semantics. -/
structure LayerRec where
  kind : LayerKind
  size : Nat
  inSize : Option Nat
  weight : Int
  relate_to : Option Nat
  relate_from : Option Nat
deriving DecidableEq, Repr

instance : Inhabited LayerRec := ⟨⟨LayerKind.cutLine, 0, none, 0, none, none⟩⟩

/-- Modelled from the spec: the arena of layer records (spec section 9 design
note) — an association list from identifiers to layer records together with the
next fresh identifier. -/
structure Arena where
  recs : List (Nat × LayerRec)
  nextId : Nat
deriving DecidableEq, Repr

/-- Association-list lookup by identifier. -/
def alook (l : List (Nat × LayerRec)) (i : Nat) : Option LayerRec :=
  match l with
  | [] => none
  | p :: rest => if p.1 = i then some p.2 else alook rest i

def Arena.lookup (a : Arena) (i : Nat) : Option LayerRec :=
  alook a.recs i

/-- Update the record stored under identifier `i` in place. -/
def updateRec (l : List (Nat × LayerRec)) (i : Nat) (f : LayerRec → LayerRec) :
    List (Nat × LayerRec) :=
  l.map (fun p => if p.1 = i then (p.1, f p.2) else p)

def Arena.update (a : Arena) (i : Nat) (f : LayerRec → LayerRec) : Arena :=
  ⟨updateRec a.recs i f, a.nextId⟩

/-- Well-formedness of the arena: every allocated identifier is below the next
fresh identifier. -/
def Arena.wfb (a : Arena) : Bool :=
  a.recs.all (fun p => decide (p.1 < a.nextId))

/-- Read an attribute of the layer stored under identifier `i`. -/
def viewAt (f : LayerRec → α) (a : Arena) (i : Nat) : α :=
  f ((a.lookup i).getD default)

def sizeAt : Arena → Nat → Nat := viewAt LayerRec.size

def inSizeAt : Arena → Nat → Option Nat := viewAt LayerRec.inSize

def weightAt : Arena → Nat → Int := viewAt LayerRec.weight

def kindAt : Arena → Nat → LayerKind := viewAt LayerRec.kind

def relToAt : Arena → Nat → Option Nat := viewAt LayerRec.relate_to

def relFromAt : Arena → Nat → Option Nat := viewAt LayerRec.relate_from

/-- Modelled from the spec: `is_layer_isolated` (spec 4.1) — true iff both
`relate_to` and `relate_from` are absent. -/
def is_layer_isolated (a : Arena) (i : Nat) : Bool :=
  (relToAt a i).isNone && (relFromAt a i).isNone

/-- Clear `relate_to` on layer `j` when it points at `i`. -/
def clearToIf (a : Arena) (j i : Nat) : Arena :=
  a.update j (fun s => if s.relate_to = some i then {s with relate_to := none} else s)

/-- Clear `relate_from` on layer `j` when it points at `i`. -/
def clearFromIf (a : Arena) (j i : Nat) : Arena :=
  a.update j (fun s => if s.relate_from = some i then {s with relate_from := none} else s)

/-- Modelled from the spec: `isolate_layer` (spec 4.1) — clears both relations
on the layer and reciprocally clears the matching back-reference on whatever
neighbor pointed at it. -/
def isolate_layer (a : Arena) (i : Nat) : Arena :=
  match a.lookup i with
  | none => a
  | some r =>
    let a1 := match r.relate_to with
      | some j => clearFromIf a j i
      | none => a
    let a2 := match r.relate_from with
      | some j => clearToIf a1 j i
      | none => a1
    a2.update i (fun s => {s with relate_to := none, relate_from := none})

/-- Sever the incoming boundary edge of the layer `i`. -/
def severIncoming (a : Arena) (i : Nat) : Arena :=
  match a.lookup i with
  | none => a
  | some r =>
    let a1 := match r.relate_from with
      | some j => clearToIf a j i
      | none => a
    a1.update i (fun s => {s with relate_from := none})

/-- Sever the outgoing boundary edge of the layer `i`. -/
def severOutgoing (a : Arena) (i : Nat) : Arena :=
  match a.lookup i with
  | none => a
  | some r =>
    let a1 := match r.relate_to with
      | some j => clearFromIf a j i
      | none => a
    a1.update i (fun s => {s with relate_to := none})

/-- Modelled from the spec: `is_connection_isolated` (spec 4.1) — the boundary
layers of the connection (given as its ordered layer-identifier sequence) have
no external relate links. -/
def is_connection_isolated (a : Arena) (c : List Nat) : Bool :=
  match c with
  | [] => true
  | first :: _ =>
    (relFromAt a first).isNone && (relToAt a (c.getLastD first)).isNone

/-- Modelled from the spec: `isolate_connection` (spec 4.1) — isolates only the
two boundary edges; internal chain links remain intact. -/
def isolate_connection (a : Arena) (c : List Nat) : Arena :=
  match c with
  | [] => a
  | first :: _ => severOutgoing (severIncoming a first) (c.getLastD first)

/-- The possible inputs of `isolate_connection_if_needed`: a single layer, a
connection, or a value of any other type (such as the string passed in
`test_isolate_wrong_data_type`). -/
inductive ConnObj
  | layer (i : Nat)
  | conn (c : List Nat)
  | other
deriving DecidableEq, Repr

/-- Modelled from the spec: `isolate_connection_if_needed` (spec 4.1) —
polymorphic entry point dispatching to the matching isolate function, raising
TypeError for any unsupported input type. -/
def isolate_connection_if_needed (a : Arena) : ConnObj → Except PyError Arena
  | ConnObj.layer i => Except.ok (isolate_layer a i)
  | ConnObj.conn c => Except.ok (isolate_connection a c)
  | ConnObj.other => Except.error PyError.typeError

theorem alook_eq_none (l : List (Nat × LayerRec)) (i : Nat)
    (h : ∀ p ∈ l, p.1 ≠ i) : alook l i = none := by
  induction l with
  | nil => rfl
  | cons p rest ih =>
    simp only [alook]
    rw [if_neg (h p (by simp))]
    exact ih (fun q hq => h q (by simp [hq]))

theorem alook_append_right (l1 l2 : List (Nat × LayerRec)) (i : Nat)
    (h : alook l1 i = none) : alook (l1 ++ l2) i = alook l2 i := by
  induction l1 with
  | nil => rfl
  | cons p rest ih =>
    simp only [alook] at h ⊢
    by_cases hp : p.1 = i
    · rw [if_pos hp] at h; exact absurd h (by simp)
    · rw [if_neg hp] at h ⊢
      exact ih h

theorem alook_append_left (l1 l2 : List (Nat × LayerRec)) (i : Nat)
    (h : ∀ p ∈ l2, p.1 ≠ i) : alook (l1 ++ l2) i = alook l1 i := by
  induction l1 with
  | nil => exact alook_eq_none l2 i h
  | cons p rest ih =>
    simp only [alook, List.cons_append]
    by_cases hp : p.1 = i
    · rw [if_pos hp, if_pos hp]
    · rw [if_neg hp, if_neg hp]; exact ih

theorem alook_updateRec_ne (l : List (Nat × LayerRec)) (i j : Nat)
    (f : LayerRec → LayerRec) (h : j ≠ i) :
    alook (updateRec l i f) j = alook l j := by
  induction l with
  | nil => rfl
  | cons p rest ih =>
    simp only [updateRec, List.map_cons]
    by_cases hp : p.1 = i
    · rw [if_pos hp]
      simp only [alook]
      rw [if_neg (by rw [hp]; exact fun hh => h hh.symm),
        if_neg (fun hh => h (hp ▸ hh).symm)]
      exact ih
    · rw [if_neg hp]
      simp only [alook]
      by_cases hj : p.1 = j
      · rw [if_pos hj, if_pos hj]
      · rw [if_neg hj, if_neg hj]; exact ih

theorem alook_updateRec_self (l : List (Nat × LayerRec)) (i : Nat)
    (f : LayerRec → LayerRec) :
    alook (updateRec l i f) i = (alook l i).map f := by
  induction l with
  | nil => rfl
  | cons p rest ih =>
    simp only [updateRec, List.map_cons]
    by_cases hp : p.1 = i
    · rw [if_pos hp]
      simp only [alook]
      rw [if_pos hp, if_pos hp]
      rfl
    · rw [if_neg hp]
      simp only [alook]
      rw [if_neg hp, if_neg hp]
      exact ih

theorem lookup_update_ne (a : Arena) (i j : Nat) (f : LayerRec → LayerRec)
    (h : j ≠ i) : (a.update i f).lookup j = a.lookup j :=
  alook_updateRec_ne a.recs i j f h

theorem lookup_update_self (a : Arena) (i : Nat) (f : LayerRec → LayerRec) :
    (a.update i f).lookup i = (a.lookup i).map f :=
  alook_updateRec_self a.recs i f

theorem isSome_lookup_update (a : Arena) (i j : Nat) (f : LayerRec → LayerRec) :
    ((a.update i f).lookup j).isSome = (a.lookup j).isSome := by
  by_cases h : j = i
  · subst h; rw [lookup_update_self]; cases a.lookup j <;> rfl
  · rw [lookup_update_ne a i j f h]

theorem wfb_key_lt {a : Arena} (h : a.wfb = true) {p : Nat × LayerRec}
    (hp : p ∈ a.recs) : p.1 < a.nextId := by
  have := List.all_eq_true.mp h p hp
  exact of_decide_eq_true this

/-- A view that only depends on the non-topology fields of a layer record is
unchanged by an update that only rewrites the topology fields. -/
theorem viewAt_update {α : Type} (f : LayerRec → α)
    (a : Arena) (i j : Nat) (g : LayerRec → LayerRec)
    (hg : ∀ r, f (g r) = f r) :
    viewAt f (a.update i g) j = viewAt f a j := by
  by_cases h : j = i
  · subst h
    unfold viewAt
    rw [lookup_update_self]
    cases hl : a.lookup j with
    | none => rfl
    | some r => simp [Option.map, hg r]
  · unfold viewAt
    rw [lookup_update_ne a i j g h]

/-- Modelled from the spec: the possible inputs of the Cut Engine (spec 4.2) —
a trained network exposing its finite connection, a bare connection, or a
lazy-learning network (such as an untrained PNN) that has no derivable
finite-length connection. -/
inductive CutInput
  | network (c : List Nat)
  | connection (c : List Nat)
  | lazyNetwork
deriving DecidableEq, Repr

/-- Modelled from the spec: normalization of a `cut` input to its underlying
connection; a lazy-learning network fails with ValueError. -/
def normalizeConnection : CutInput → Except PyError (List Nat)
  | CutInput.network c => Except.ok c
  | CutInput.connection c => Except.ok c
  | CutInput.lazyNetwork => Except.error PyError.valueError

/-- Python-style resolution of a negative end index against the layer count. -/
def resolveEnd (stop : Int) (n : Nat) : Int :=
  if stop < 0 then stop + n else stop

/-- Clone the records of the selected layers as a fresh chain: the k-th clone
gets identifier `base + k`, copies the non-topology fields, and is linked to
the neighbouring clones only. -/
def cloneRecs (a : Arena) (base : Nat) : Nat → List Nat → List (Nat × LayerRec)
  | _, [] => []
  | k, x :: rest =>
    let r := (a.lookup x).getD default
    (base + k,
      { r with
        relate_to := if rest.isEmpty then none else some (base + k + 1),
        relate_from := if k = 0 then none else some (base + k - 1) })
      :: cloneRecs a base (k + 1) rest

/-- Modelled from the spec: cloning of a selected layer sub-sequence (spec 4.2)
— fresh identities, copied parameter values, re-linked into a fresh chain whose
boundaries are isolated; the original records are appended to, never
rewritten. -/
def cloneGroup (a : Arena) (ids : List Nat) : Arena × List Nat :=
  let newRecs := cloneRecs a a.nextId 0 ids
  (⟨a.recs ++ newRecs, a.nextId + ids.length⟩, newRecs.map (fun p => p.1))

/-- The result of a cut: a bare layer (unwrapped) or a connection. -/
inductive CutResult
  | layer (i : Nat)
  | conn (c : List Nat)
deriving DecidableEq, Repr

/-- The ordered member identifiers of a cut result. -/
def resIds : CutResult → List Nat
  | CutResult.layer i => [i]
  | CutResult.conn c => c

/-- Wrap a cloned chain: exactly one layer is returned unwrapped. -/
def mkSeg : List Nat → CutResult
  | [i] => CutResult.layer i
  | l => CutResult.conn l

/-- Modelled from the spec: `cut` (spec 4.2) — normalizes the input to its
connection, resolves a negative end index against the layer count before
validation, validates `0 <= start < end <= n` (ValueError otherwise), clones
the selected sub-sequence `[start, end)` and returns a bare cloned layer or a
fresh connection of clones. -/
def cut (a : Arena) (input : CutInput) (start : Nat) (stop : Int) :
    Except PyError (Arena × CutResult) :=
  match normalizeConnection input with
  | Except.error e => Except.error e
  | Except.ok c =>
    let n := c.length
    let e := resolveEnd stop n
    if (start : Int) < e ∧ e ≤ (n : Int) then
      let sel := (c.drop start).take (e.toNat - start)
      let res := cloneGroup a sel
      Except.ok (res.1, mkSeg res.2)
    else Except.error PyError.valueError

/-- Training of a network, as surgery observes it (spec sections 4.2 and 8): an
in-place update of every member layer's trained parameter state. -/
def trainConn (a : Arena) (c : List Nat) (d : Int) : Arena :=
  c.foldl (fun acc i => acc.update i (fun r => {r with weight := r.weight + d})) a

theorem resIds_mkSeg (l : List Nat) : resIds (mkSeg l) = l := by
  match l with
  | [] => rfl
  | [i] => rfl
  | i :: j :: rest => rfl

theorem cloneRecs_key_ge (a : Arena) (base : Nat) :
    ∀ (ids : List Nat) (k : Nat), ∀ p ∈ cloneRecs a base k ids, base + k ≤ p.1 := by
  intro ids
  induction ids with
  | nil => intro k p hp; exact absurd hp (by simp [cloneRecs])
  | cons x rest ih =>
    intro k p hp
    simp only [cloneRecs, List.mem_cons] at hp
    rcases hp with hp | hp
    · subst hp; exact Nat.le_refl _
    · have := ih (k + 1) p hp
      omega

theorem cloneRecs_key_lt (a : Arena) (base : Nat) :
    ∀ (ids : List Nat) (k : Nat), ∀ p ∈ cloneRecs a base k ids,
      p.1 < base + k + ids.length := by
  intro ids
  induction ids with
  | nil => intro k p hp; exact absurd hp (by simp [cloneRecs])
  | cons x rest ih =>
    intro k p hp
    simp only [cloneRecs, List.mem_cons] at hp
    rcases hp with hp | hp
    · subst hp; simp
    · have := ih (k + 1) p hp
      simp only [List.length_cons]
      omega

theorem cloneGroup_lookup_old (a : Arena) (ids : List Nat) (i : Nat)
    (h : i < a.nextId) : (cloneGroup a ids).1.lookup i = a.lookup i := by
  show alook (a.recs ++ cloneRecs a a.nextId 0 ids) i = alook a.recs i
  exact alook_append_left _ _ _ (fun p hp => by
    have := cloneRecs_key_ge a a.nextId ids 0 p hp
    omega)

theorem cloneGroup_wfb (a : Arena) (ids : List Nat) (h : a.wfb = true) :
    (cloneGroup a ids).1.wfb = true := by
  rw [Arena.wfb, List.all_eq_true] at h ⊢
  intro p hp
  show decide (p.1 < a.nextId + ids.length) = true
  rw [decide_eq_true_iff]
  rcases List.mem_append.mp hp with hp | hp
  · have := of_decide_eq_true (h p hp)
    omega
  · have := cloneRecs_key_lt a a.nextId ids 0 p hp
    omega

theorem cloneGroup_nextId (a : Arena) (ids : List Nat) :
    (cloneGroup a ids).1.nextId = a.nextId + ids.length := rfl

theorem cloneGroup_ids_ge (a : Arena) (ids : List Nat) :
    ∀ i ∈ (cloneGroup a ids).2, a.nextId ≤ i := by
  intro i hi
  rcases List.mem_map.mp hi with ⟨p, hp, hpi⟩
  have := cloneRecs_key_ge a a.nextId ids 0 p hp
  omega

theorem cloneGroup_ids_lt (a : Arena) (ids : List Nat) :
    ∀ i ∈ (cloneGroup a ids).2, i < (cloneGroup a ids).1.nextId := by
  intro i hi
  rcases List.mem_map.mp hi with ⟨p, hp, hpi⟩
  have := cloneRecs_key_lt a a.nextId ids 0 p hp
  rw [cloneGroup_nextId]
  omega

theorem cloneRecs_view {α : Type} (f : LayerRec → α)
    (hf : ∀ (r : LayerRec) (x y : Option Nat),
      f {r with relate_to := x, relate_from := y} = f r)
    (a : Arena) (base : Nat) :
    ∀ (ids : List Nat) (k : Nat),
      ((cloneRecs a base k ids).map (fun p => p.1)).map
          (fun i => f ((alook (cloneRecs a base k ids) i).getD default))
        = ids.map (fun x => viewAt f a x) := by
  intro ids
  induction ids with
  | nil => intro k; rfl
  | cons x rest ih =>
    intro k
    simp only [cloneRecs, List.map_cons]
    refine List.cons_eq_cons.mpr ⟨?_, ?_⟩
    · simp only [alook, if_pos rfl, Option.getD_some]
      exact hf _ _ _
    · have hcongr : ∀ i ∈ (cloneRecs a base (k + 1) rest).map (fun p => p.1),
          f ((alook ((base + k,
              { (a.lookup x).getD default with
                relate_to := if rest.isEmpty then none else some (base + k + 1),
                relate_from := if k = 0 then none else some (base + k - 1) })
              :: cloneRecs a base (k + 1) rest) i).getD default)
          = f ((alook (cloneRecs a base (k + 1) rest) i).getD default) := by
        intro i hi
        rcases List.mem_map.mp hi with ⟨p, hp, hpi⟩
        have hge := cloneRecs_key_ge a base rest (k + 1) p hp
        have hne : ¬ (base + k = i) := by omega
        simp only [alook, if_neg hne]
      rw [List.map_congr_left hcongr]
      exact ih (k + 1)

theorem cloneGroup_view {α : Type} (f : LayerRec → α)
    (hf : ∀ (r : LayerRec) (x y : Option Nat),
      f {r with relate_to := x, relate_from := y} = f r)
    (a : Arena) (ids : List Nat) (hwf : a.wfb = true) :
    ((cloneGroup a ids).2).map (viewAt f (cloneGroup a ids).1)
      = ids.map (viewAt f a) := by
  have hcongr : ∀ i ∈ (cloneRecs a a.nextId 0 ids).map (fun p => p.1),
      viewAt f (cloneGroup a ids).1 i
        = f ((alook (cloneRecs a a.nextId 0 ids) i).getD default) := by
    intro i hi
    rcases List.mem_map.mp hi with ⟨p, hp, hpi⟩
    have hge := cloneRecs_key_ge a a.nextId ids 0 p hp
    show f ((alook (a.recs ++ cloneRecs a a.nextId 0 ids) i).getD default) = _
    rw [alook_append_right _ _ _ (alook_eq_none _ _ (fun q hq => by
      have := wfb_key_lt hwf hq
      omega))]
  show ((cloneRecs a a.nextId 0 ids).map (fun p => p.1)).map
      (viewAt f (cloneGroup a ids).1) = ids.map (viewAt f a)
  rw [List.map_congr_left hcongr]
  exact cloneRecs_view f hf a a.nextId ids 0

theorem trainConn_lookup_notMem (d : Int) :
    ∀ (c : List Nat) (a : Arena) (i : Nat), i ∉ c →
      (trainConn a c d).lookup i = a.lookup i := by
  intro c
  induction c with
  | nil => intro a i _; rfl
  | cons x rest ih =>
    intro a i hi
    have hne : i ≠ x := fun h => hi (h ▸ List.mem_cons_self x rest)
    have hrest : i ∉ rest := fun h => hi (List.mem_cons_of_mem x h)
    show (trainConn (a.update x _) rest d).lookup i = a.lookup i
    rw [ih _ i hrest, lookup_update_ne _ _ _ _ hne]

theorem trainConn_lookup_mem (d : Int) :
    ∀ (c : List Nat) (a : Arena) (i : Nat), c.Nodup → i ∈ c →
      (trainConn a c d).lookup i
        = (a.lookup i).map (fun r => {r with weight := r.weight + d}) := by
  intro c
  induction c with
  | nil => intro a i _ hi; exact absurd hi (List.not_mem_nil i)
  | cons x rest ih =>
    intro a i hnd hi
    have hx : x ∉ rest := (List.nodup_cons.mp hnd).1
    have hrest : rest.Nodup := (List.nodup_cons.mp hnd).2
    show (trainConn (a.update x _) rest d).lookup i = _
    rcases List.mem_cons.mp hi with hix | hir
    · subst hix
      rw [trainConn_lookup_notMem d rest _ i hx, lookup_update_self]
    · have hne : i ≠ x := fun h => hx (h ▸ hir)
      rw [ih _ i hrest hir, lookup_update_ne _ _ _ _ hne]

theorem trainConn_weightAt_mem (a : Arena) (c : List Nat) (d : Int) (i : Nat)
    (hnd : c.Nodup) (hi : i ∈ c) (hs : (a.lookup i).isSome = true) :
    weightAt (trainConn a c d) i = weightAt a i + d := by
  show ((Arena.lookup _ i).getD default).weight = _
  rw [trainConn_lookup_mem d c a i hnd hi]
  cases hl : a.lookup i with
  | none => rw [hl] at hs; exact absurd hs (by simp)
  | some r => simp [weightAt, viewAt, Arena.lookup] at *; rw [hl]; rfl

/-- All the given identifiers are allocated in the arena. -/
def presentAll (a : Arena) (ids : List Nat) : Bool :=
  ids.all (fun i => (a.lookup i).isSome)

theorem alook_isSome_mem (l : List (Nat × LayerRec)) (i : Nat)
    (h : (alook l i).isSome = true) : ∃ p ∈ l, p.1 = i := by
  induction l with
  | nil => exact absurd h (by simp [alook])
  | cons p rest ih =>
    by_cases hp : p.1 = i
    · exact ⟨p, by simp, hp⟩
    · simp only [alook, if_neg hp] at h
      rcases ih h with ⟨q, hq, hqi⟩
      exact ⟨q, by simp [hq], hqi⟩

theorem present_lt_nextId (a : Arena) (ids : List Nat) (hwf : a.wfb = true)
    (hp : presentAll a ids = true) : ∀ i ∈ ids, i < a.nextId := by
  intro i hi
  have hs := List.all_eq_true.mp hp i hi
  rcases alook_isSome_mem a.recs i hs with ⟨q, hq, hqi⟩
  have := wfb_key_lt hwf hq
  omega

theorem presentAll_mem (a : Arena) (ids : List Nat) (hp : presentAll a ids = true)
    {i : Nat} (hi : i ∈ ids) : (a.lookup i).isSome = true :=
  List.all_eq_true.mp hp i hi

/-- The non-interference contract of `cut` (spec 4.2 guarantee, spec section 8):
the original arena records are untouched, the returned identifiers are fresh,
the clones carry the original parameter values at call time, and training the
original connection and training the cut result do not affect each other, while
training the original does change the original parameters. -/
def CutNonInterference (a : Arena) (c : List Nat) (start : Nat) (stop : Int)
    (d : Int) (a2 : Arena) (r : CutResult) : Prop :=
  (∀ i, i < a.nextId → a2.lookup i = a.lookup i)
  ∧ (∀ i ∈ resIds r, a.nextId ≤ i)
  ∧ (resIds r).map (weightAt a2)
      = ((c.drop start).take ((resolveEnd stop c.length).toNat - start)).map (weightAt a)
  ∧ (∀ i ∈ resIds r, (trainConn a2 c d).lookup i = a2.lookup i)
  ∧ (∀ i ∈ c, d ≠ 0 → weightAt (trainConn a2 c d) i ≠ weightAt a2 i)
  ∧ (∀ i, i < a.nextId → (trainConn a2 (resIds r) d).lookup i = a2.lookup i)

/-- C1: for every connection and valid range, `cut` returns only freshly cloned
layers whose parameter values equal the originals' at call time; the original
topology and trained parameters are unchanged, and training the original and
the clone are independent of each other. -/
theorem cut_noninterference (a : Arena) (c : List Nat) (start : Nat) (stop : Int)
    (d : Int) (a2 : Arena) (r : CutResult)
    (hwf : a.wfb = true) (hpres : presentAll a c = true) (hnd : c.Nodup)
    (hcut : cut a (CutInput.connection c) start stop = Except.ok (a2, r)) :
    CutNonInterference a c start stop d a2 r := by
  simp only [cut, normalizeConnection] at hcut
  by_cases hcond :
      (start : Int) < resolveEnd stop c.length ∧ resolveEnd stop c.length ≤ (c.length : Int)
  case neg => rw [if_neg hcond] at hcut; exact absurd hcut (by simp)
  rw [if_pos hcond] at hcut
  have hpr := (Except.ok.injEq _ _).mp hcut.symm
  have ha2 : a2 = (cloneGroup a ((c.drop start).take
      ((resolveEnd stop c.length).toNat - start))).1 := congrArg Prod.fst hpr
  have hr : r = mkSeg (cloneGroup a ((c.drop start).take
      ((resolveEnd stop c.length).toNat - start))).2 := congrArg Prod.snd hpr
  set sel := (c.drop start).take ((resolveEnd stop c.length).toNat - start) with hsel
  have hids : resIds r = (cloneGroup a sel).2 := by rw [hr, resIds_mkSeg]
  have hmem_lt : ∀ i ∈ c, i < a.nextId := present_lt_nextId a c hwf hpres
  refine ⟨?_, ?_, ?_, ?_, ?_, ?_⟩
  · intro i hi
    rw [ha2]
    exact cloneGroup_lookup_old a sel i hi
  · intro i hi
    rw [hids] at hi
    exact cloneGroup_ids_ge a sel i hi
  · rw [hids, ha2]
    exact cloneGroup_view LayerRec.weight (fun r x y => rfl) a sel hwf
  · intro i hi
    rw [hids] at hi
    have hge := cloneGroup_ids_ge a sel i hi
    have hni : i ∉ c := fun hic => by have := hmem_lt i hic; omega
    exact trainConn_lookup_notMem d c a2 i hni
  · intro i hic hd
    have hlt := hmem_lt i hic
    have hsome : (a2.lookup i).isSome = true := by
      rw [ha2, cloneGroup_lookup_old a sel i hlt]
      exact presentAll_mem a c hpres hic
    rw [trainConn_weightAt_mem a2 c d i hnd hic hsome]
    omega
  · intro i hi
    have hni : i ∉ resIds r := fun hir => by
      rw [hids] at hir
      have := cloneGroup_ids_ge a sel i hir
      omega
    exact trainConn_lookup_notMem d (resIds r) a2 i hni

/-- C3: `cut` raises ValueError whenever start >= end, whenever end > n, and
whenever the input object has no derivable finite-length connection (such as an
untrained lazy-learning PNN network); it succeeds for all arguments with
0 <= start < end <= n on a finite chain. -/
theorem cut_validation (a : Arena) (c : List Nat) (start : Nat) (stop : Int) :
    cut a CutInput.lazyNetwork start stop = Except.error PyError.valueError
    ∧ (resolveEnd stop c.length ≤ (start : Int) →
        cut a (CutInput.connection c) start stop = Except.error PyError.valueError)
    ∧ ((c.length : Int) < resolveEnd stop c.length →
        cut a (CutInput.connection c) start stop = Except.error PyError.valueError)
    ∧ ((start : Int) < resolveEnd stop c.length →
        resolveEnd stop c.length ≤ (c.length : Int) →
        (cut a (CutInput.connection c) start stop).isOk = true) := by
  refine ⟨rfl, ?_, ?_, ?_⟩
  · intro hle
    simp only [cut, normalizeConnection]
    rw [if_neg (by omega)]
  · intro hgt
    simp only [cut, normalizeConnection]
    rw [if_neg (by omega)]
  · intro hlt hle
    simp only [cut, normalizeConnection]
    rw [if_pos (by exact ⟨hlt, hle⟩)]
    rfl

/-- C6: a negative end index is resolved against the layer count before
validation, so cutting with end = stop < 0 gives the very same result as
cutting with end = stop + n. -/
theorem cut_negative_end (a : Arena) (c : List Nat) (start : Nat) (stop : Int)
    (hneg : stop < 0) (hres : 0 ≤ stop + (c.length : Int)) :
    cut a (CutInput.connection c) start stop
      = cut a (CutInput.connection c) start (stop + c.length) := by
  simp only [cut, normalizeConnection]
  have h1 : resolveEnd stop c.length = stop + c.length := by
    rw [resolveEnd, if_pos hneg]
  have h2 : resolveEnd (stop + c.length) c.length = stop + c.length := by
    rw [resolveEnd, if_neg (by omega)]
  rw [h1, h2]

/-- Example arena: the four-layer network of the surgery tests,
Input 30 > Sigmoid 10 > Sigmoid 20 > Sigmoid 1, with distinct trained
parameter values. -/
def exNet : Arena :=
  ⟨[(0, ⟨LayerKind.input, 30, some 30, 0, some 1, none⟩),
    (1, ⟨LayerKind.sigmoid, 10, none, 5, some 2, some 0⟩),
    (2, ⟨LayerKind.sigmoid, 20, none, 7, some 3, some 1⟩),
    (3, ⟨LayerKind.sigmoid, 1, none, 9, none, some 2⟩)], 4⟩

/-- The ordered member identifiers of `exNet`'s connection. -/
def exConn : List Nat := [0, 1, 2, 3]

/-- The arena after `cut exNet exConn 1 2`: one fresh clone of layer 1. -/
def exNetCut : Arena :=
  ⟨[(0, ⟨LayerKind.input, 30, some 30, 0, some 1, none⟩),
    (1, ⟨LayerKind.sigmoid, 10, none, 5, some 2, some 0⟩),
    (2, ⟨LayerKind.sigmoid, 20, none, 7, some 3, some 1⟩),
    (3, ⟨LayerKind.sigmoid, 1, none, 9, none, some 2⟩),
    (4, ⟨LayerKind.sigmoid, 10, none, 5, none, none⟩)], 5⟩

theorem cut_noninterference_witness :
    exNet.wfb = true ∧ presentAll exNet exConn = true ∧ exConn.Nodup
    ∧ CutNonInterference exNet exConn 1 2 1 exNetCut (CutResult.layer 4) :=
  ⟨by decide, by decide, by decide,
    cut_noninterference exNet exConn 1 2 1 exNetCut (CutResult.layer 4)
      (by decide) (by decide) (by decide) rfl⟩

theorem cut_validation_witness :
    cut exNet CutInput.lazyNetwork 0 1 = Except.error PyError.valueError
    ∧ cut exNet (CutInput.connection exConn) 0 0 = Except.error PyError.valueError
    ∧ cut exNet (CutInput.connection exConn) 0 10 = Except.error PyError.valueError
    ∧ (cut exNet (CutInput.connection exConn) 0 2).isOk = true :=
  ⟨(cut_validation exNet exConn 0 1).1,
    (cut_validation exNet exConn 0 0).2.1 (by decide),
    (cut_validation exNet exConn 0 10).2.2.1 (by decide),
    (cut_validation exNet exConn 0 2).2.2.2 (by decide) (by decide)⟩

theorem cut_negative_end_witness :
    (-1 : Int) < 0 ∧ 0 ≤ (-1 : Int) + (exConn.length : Int)
    ∧ cut exNet (CutInput.connection exConn) 1 (-1)
        = cut exNet (CutInput.connection exConn) 1 (-1 + exConn.length) :=
  ⟨by decide, by decide,
    cut_negative_end exNet exConn 1 (-1) (by decide) (by decide)⟩

/-- Is the layer stored under `i` a CutLine marker? -/
def isCutLine (a : Arena) (i : Nat) : Bool :=
  kindAt a i == LayerKind.cutLine

/-- Split the ordered layer sequence at CutLine markers, discarding the markers
and keeping every (possibly empty) span: one before the first marker, one
between each pair of consecutive markers, one after the last marker. -/
def splitAux (a : Arena) : List Nat → List Nat → List (List Nat)
  | [], acc => [acc.reverse]
  | i :: rest, acc =>
    if isCutLine a i then acc.reverse :: splitAux a rest []
    else splitAux a rest (i :: acc)

def splitOnMarkers (a : Arena) (c : List Nat) : List (List Nat) :=
  splitAux a c []

/-- Clone every span in order, threading the arena. -/
def cloneGroups (a : Arena) : List (List Nat) → Arena × List CutResult
  | [] => (a, [])
  | g :: rest =>
    let res := cloneGroup a g
    let tailRes := cloneGroups res.1 rest
    (tailRes.1, mkSeg res.2 :: tailRes.2)

/-- Modelled from the spec: `cut_along_lines` (spec 4.3) — partitions the
connection at CutLine markers and clones each span under the same cloning
contract as `cut`.  The spec's prose says an empty span yields None in its
tuple position; the repository's own tests in
src/tests/sugrery/test_surgery.py (test_cut_along_lines_check_cut_points,
expected_shapes for consecutive markers and for markers at the boundaries)
instead require empty spans to be omitted from the result, so the model
follows the tests and keeps only the non-empty spans. -/
def cut_along_lines (a : Arena) (input : CutInput) :
    Except PyError (Arena × List CutResult) :=
  match normalizeConnection input with
  | Except.error e => Except.error e
  | Except.ok c =>
    let groups := (splitOnMarkers a c).filter (fun g => !g.isEmpty)
    Except.ok (cloneGroups a groups)

theorem cloneGroups_spec :
    ∀ (groups : List (List Nat)) (a : Arena), a.wfb = true →
      (∀ g ∈ groups, ∀ i ∈ g, i < a.nextId) →
      (cloneGroups a groups).1.wfb = true
      ∧ a.nextId ≤ (cloneGroups a groups).1.nextId
      ∧ (∀ i, i < a.nextId → (cloneGroups a groups).1.lookup i = a.lookup i)
      ∧ (cloneGroups a groups).2.map
          (fun r => (resIds r).map (sizeAt (cloneGroups a groups).1))
        = groups.map (fun g => g.map (sizeAt a)) := by
  intro groups
  induction groups with
  | nil => intro a hwf _; exact ⟨hwf, Nat.le_refl _, fun i _ => rfl, rfl⟩
  | cons g rest ih =>
    intro a hwf hmem
    have hmemrest : ∀ g2 ∈ rest, ∀ i ∈ g2, i < (cloneGroup a g).1.nextId := by
      intro g2 hg2 i hi
      have := hmem g2 (List.mem_cons_of_mem g hg2) i hi
      rw [cloneGroup_nextId]; omega
    obtain ⟨hwf2, hle2, hframe2, hsz2⟩ :=
      ih (cloneGroup a g).1 (cloneGroup_wfb a g hwf) hmemrest
    have hle1 : a.nextId ≤ (cloneGroup a g).1.nextId := by
      rw [cloneGroup_nextId]; omega
    refine ⟨hwf2, Nat.le_trans hle1 hle2, ?_, ?_⟩
    · intro i hi
      show (cloneGroups (cloneGroup a g).1 rest).1.lookup i = a.lookup i
      rw [hframe2 i (by omega), cloneGroup_lookup_old a g i hi]
    · show (mkSeg (cloneGroup a g).2 :: (cloneGroups (cloneGroup a g).1 rest).2).map
          (fun r => (resIds r).map (sizeAt (cloneGroups (cloneGroup a g).1 rest).1))
        = (g.map (sizeAt a)) :: rest.map (fun gg => gg.map (sizeAt a))
      simp only [List.map_cons]
      refine List.cons_eq_cons.mpr ⟨?_, ?_⟩
      · rw [resIds_mkSeg]
        have hpt : ∀ i ∈ (cloneGroup a g).2,
            sizeAt (cloneGroups (cloneGroup a g).1 rest).1 i
              = sizeAt (cloneGroup a g).1 i := by
          intro i hi
          have := cloneGroup_ids_lt a g i hi
          show LayerRec.size (((cloneGroups (cloneGroup a g).1 rest).1.lookup i).getD default)
            = LayerRec.size (((cloneGroup a g).1.lookup i).getD default)
          rw [hframe2 i (by omega)]
        rw [List.map_congr_left hpt]
        exact cloneGroup_view LayerRec.size (fun r x y => rfl) a g hwf
      · rw [hsz2]
        refine List.map_congr_left ?_
        intro g2 hg2
        refine List.map_congr_left ?_
        intro i hi
        have hilt := hmem g2 (List.mem_cons_of_mem g hg2) i hi
        show LayerRec.size (((cloneGroup a g).1.lookup i).getD default)
          = LayerRec.size ((a.lookup i).getD default)
        rw [cloneGroup_lookup_old a g i hilt]

theorem splitAux_mem (a : Arena) :
    ∀ (l acc : List Nat), ∀ g ∈ splitAux a l acc, ∀ i ∈ g, i ∈ l ∨ i ∈ acc := by
  intro l
  induction l with
  | nil =>
    intro acc g hg i hi
    simp only [splitAux, List.mem_singleton] at hg
    subst hg
    exact Or.inr (List.mem_reverse.mp hi)
  | cons x rest ih =>
    intro acc g hg i hi
    simp only [splitAux] at hg
    by_cases hc : isCutLine a x
    · rw [if_pos hc] at hg
      rcases List.mem_cons.mp hg with hg | hg
      · subst hg
        exact Or.inr (List.mem_reverse.mp hi)
      · rcases ih [] g hg i hi with h | h
        · exact Or.inl (List.mem_cons_of_mem x h)
        · exact absurd h (List.not_mem_nil i)
    · rw [if_neg hc] at hg
      rcases ih (x :: acc) g hg i hi with h | h
      · exact Or.inl (List.mem_cons_of_mem x h)
      · rcases List.mem_cons.mp h with h | h
        · exact Or.inl (h ▸ List.mem_cons_self x rest)
        · exact Or.inr h

/-- C2 (amended): `cut_along_lines` on a connection never raises; it returns
one position per non-empty marker-delimited span, in original order, each
position holding a clone of that span with the span's shape sequence; empty
spans (adjacent markers, or a marker at a boundary) are omitted from the
result. -/
theorem cut_along_lines_nonempty_spans (a : Arena) (c : List Nat)
    (hwf : a.wfb = true) (hmem : ∀ i ∈ c, i < a.nextId) :
    ∃ a2 segs, cut_along_lines a (CutInput.connection c) = Except.ok (a2, segs)
      ∧ segs.length = ((splitOnMarkers a c).filter (fun g => !g.isEmpty)).length
      ∧ segs.map (fun r => (resIds r).map (sizeAt a2))
        = ((splitOnMarkers a c).filter (fun g => !g.isEmpty)).map
            (fun g => g.map (sizeAt a)) := by
  have hg : ∀ g ∈ (splitOnMarkers a c).filter (fun g => !g.isEmpty),
      ∀ i ∈ g, i < a.nextId := by
    intro g hgf i hi
    have hgm := List.mem_filter.mp hgf
    rcases splitAux_mem a c [] g hgm.1 i hi with h | h
    · exact hmem i h
    · exact absurd h (List.not_mem_nil i)
  obtain ⟨hw, hle, hfr, hsz⟩ :=
    cloneGroups_spec ((splitOnMarkers a c).filter (fun g => !g.isEmpty)) a hwf hg
  refine ⟨_, _, rfl, ?_, hsz⟩
  have := congrArg List.length hsz
  simpa using this

theorem cut_along_lines_nonempty_spans_witness :
    exNet.wfb = true
    ∧ ∃ a2 segs,
        cut_along_lines exNet (CutInput.connection exConn) = Except.ok (a2, segs)
        ∧ segs.length = ((splitOnMarkers exNet exConn).filter (fun g => !g.isEmpty)).length
        ∧ segs.map (fun r => (resIds r).map (sizeAt a2))
          = ((splitOnMarkers exNet exConn).filter (fun g => !g.isEmpty)).map
              (fun g => g.map (sizeAt exNet)) :=
  ⟨by decide, cut_along_lines_nonempty_spans exNet exConn (by decide) (by decide)⟩

/-- Example arena: the test network Input 5 > Sigmoid 10 > Sigmoid 20 >
Sigmoid 30 > CutLine > CutLine > Sigmoid 1 with two consecutive markers. -/
def exLines : Arena :=
  ⟨[(0, ⟨LayerKind.input, 5, some 5, 0, some 1, none⟩),
    (1, ⟨LayerKind.sigmoid, 10, none, 1, some 2, some 0⟩),
    (2, ⟨LayerKind.sigmoid, 20, none, 2, some 3, some 1⟩),
    (3, ⟨LayerKind.sigmoid, 30, none, 3, some 4, some 2⟩),
    (4, ⟨LayerKind.cutLine, 0, none, 0, some 5, some 3⟩),
    (5, ⟨LayerKind.cutLine, 0, none, 0, some 6, some 4⟩),
    (6, ⟨LayerKind.sigmoid, 1, none, 6, none, some 5⟩)], 7⟩

def exLinesConn : List Nat := [0, 1, 2, 3, 4, 5, 6]

/-- C2 counterexample: with two consecutive markers the connection has three
marker-delimited spans, but `cut_along_lines` returns only two positions, the
shape sequences expected by the repository's test — the empty span between the
markers is omitted, not represented by a None position. -/
theorem cut_along_lines_empty_span_omitted :
    (splitOnMarkers exLines exLinesConn).length = 3
    ∧ (cut_along_lines exLines (CutInput.connection exLinesConn)).map
        (fun p => p.2.length) = Except.ok 2
    ∧ (cut_along_lines exLines (CutInput.connection exLinesConn)).map
        (fun p => p.2.map (fun r => (resIds r).map (sizeAt p.1)))
      = Except.ok [[5, 10, 20, 30], [1]] :=
  ⟨rfl, rfl, rfl⟩

/-- An atomic sewing fragment: a single layer or a connection. -/
inductive FragAtom
  | layer (i : Nat)
  | conn (c : List Nat)
deriving DecidableEq, Repr

/-- Modelled from the spec: a sewing input fragment (spec 4.4) — a Layer, a
Connection, or a nested sequence of Layers/Connections that is flattened one
level, preserving order, before sewing. -/
inductive Fragment
  | atom (x : FragAtom)
  | seq (xs : List FragAtom)
deriving DecidableEq, Repr

def Fragment.flatten : Fragment → List FragAtom
  | Fragment.atom x => [x]
  | Fragment.seq xs => xs

/-- The ordered member identifiers of an atomic fragment. -/
def atomIds : FragAtom → List Nat
  | FragAtom.layer i => [i]
  | FragAtom.conn c => c

/-- The flattened atomic fragments of a sewing input, in order. -/
def atomsOf (frags : List Fragment) : List FragAtom :=
  (frags.map Fragment.flatten).flatten

/-- All member identifiers of a list of atoms, in order. -/
def idsOfAtoms (atoms : List FragAtom) : List Nat :=
  (atoms.map atomIds).flatten

def firstIdOf : FragAtom → Nat
  | FragAtom.layer i => i
  | FragAtom.conn c => c.headD 0

def lastIdOf : FragAtom → Nat
  | FragAtom.layer i => i
  | FragAtom.conn c => c.getLastD 0

/-- Boundary isolation of one fragment before sewing (spec 4.4 / 4.1). -/
def isolateAtom (a : Arena) (x : FragAtom) : Arena :=
  match x with
  | FragAtom.layer i => isolate_layer a i
  | FragAtom.conn c => isolate_connection a c

/-- Shape compatibility at the junction between two consecutive fragments: the
declared input shape of the head of the later fragment, when known, must match
the output shape of the tail of the earlier fragment. -/
def checkJunction (a : Arena) (x y : FragAtom) : Bool :=
  match inSizeAt a (firstIdOf y) with
  | some m => m == sizeAt a (lastIdOf x)
  | none => true

def junctionsOk (a : Arena) : List FragAtom → Bool
  | [] => true
  | [_] => true
  | x :: y :: rest => checkJunction a x y && junctionsOk a (y :: rest)

/-- The tail-to-head junction pairs of consecutive fragments. -/
def boundaryPairs : List FragAtom → List (Nat × Nat)
  | [] => []
  | [_] => []
  | x :: y :: rest => (lastIdOf x, firstIdOf y) :: boundaryPairs (y :: rest)

/-- Link the last layer of one fragment to the first layer of the next:
`relate_to` on the tail, with the reciprocal `relate_from` on the head. -/
def linkPair (a : Arena) (i j : Nat) : Arena :=
  (a.update i (fun r => {r with relate_to := some j})).update j
    (fun r => {r with relate_from := some i})

def setLinks (a : Arena) : List (Nat × Nat) → Arena
  | [] => a
  | p :: rest => setLinks (linkPair a p.1 p.2) rest

/-- Modelled from the spec: `sew_together` (spec 4.4) — flattens the fragment
sequence one level, returns None for an empty sequence, validates shape
compatibility at every junction (ValueError on mismatch), isolates every
fragment's boundaries, links the fragments pairwise tail-to-head in input
order, and returns the single layer unwrapped or the combined connection. -/
def sew_together (a : Arena) (frags : List Fragment) :
    Except PyError (Arena × Option CutResult) :=
  let atoms := atomsOf frags
  if atoms.isEmpty then Except.ok (a, none)
  else if junctionsOk a atoms then
    let a1 := atoms.foldl isolateAtom a
    let a2 := setLinks a1 (boundaryPairs atoms)
    Except.ok (a2, some (mkSeg (idsOfAtoms atoms)))
  else Except.error PyError.valueError

theorem viewAt_clearToIf {α : Type} (f : LayerRec → α)
    (hf : ∀ (r : LayerRec) (x y : Option Nat),
      f {r with relate_to := x, relate_from := y} = f r)
    (a : Arena) (j i m : Nat) : viewAt f (clearToIf a j i) m = viewAt f a m := by
  refine viewAt_update f a j m _ ?_
  intro r
  by_cases h : r.relate_to = some i
  · rw [if_pos h]; exact hf r none r.relate_from
  · rw [if_neg h]

theorem viewAt_clearFromIf {α : Type} (f : LayerRec → α)
    (hf : ∀ (r : LayerRec) (x y : Option Nat),
      f {r with relate_to := x, relate_from := y} = f r)
    (a : Arena) (j i m : Nat) : viewAt f (clearFromIf a j i) m = viewAt f a m := by
  refine viewAt_update f a j m _ ?_
  intro r
  by_cases h : r.relate_from = some i
  · rw [if_pos h]; exact hf r r.relate_to none
  · rw [if_neg h]

theorem viewAt_severIncoming {α : Type} (f : LayerRec → α)
    (hf : ∀ (r : LayerRec) (x y : Option Nat),
      f {r with relate_to := x, relate_from := y} = f r)
    (a : Arena) (i m : Nat) : viewAt f (severIncoming a i) m = viewAt f a m := by
  unfold severIncoming
  cases hl : a.lookup i with
  | none => rfl
  | some r =>
    rcases hfr : r.relate_from with _ | u <;> simp only [hfr]
    · exact viewAt_update f a i m _ (fun s => hf s s.relate_to none)
    · rw [viewAt_update f (clearToIf a u i) i m _ (fun s => hf s s.relate_to none)]
      exact viewAt_clearToIf f hf a u i m

theorem viewAt_severOutgoing {α : Type} (f : LayerRec → α)
    (hf : ∀ (r : LayerRec) (x y : Option Nat),
      f {r with relate_to := x, relate_from := y} = f r)
    (a : Arena) (i m : Nat) : viewAt f (severOutgoing a i) m = viewAt f a m := by
  unfold severOutgoing
  cases hl : a.lookup i with
  | none => rfl
  | some r =>
    rcases hto : r.relate_to with _ | u <;> simp only [hto]
    · exact viewAt_update f a i m _ (fun s => hf s none s.relate_from)
    · rw [viewAt_update f (clearFromIf a u i) i m _ (fun s => hf s none s.relate_from)]
      exact viewAt_clearFromIf f hf a u i m

theorem viewAt_isolate_layer {α : Type} (f : LayerRec → α)
    (hf : ∀ (r : LayerRec) (x y : Option Nat),
      f {r with relate_to := x, relate_from := y} = f r)
    (a : Arena) (i m : Nat) : viewAt f (isolate_layer a i) m = viewAt f a m := by
  unfold isolate_layer
  cases hl : a.lookup i with
  | none => rfl
  | some r =>
    rcases hto : r.relate_to with _ | u <;> rcases hfr : r.relate_from with _ | v <;>
      simp only [hto, hfr]
    · exact viewAt_update f a i m _ (fun s => hf s none none)
    · rw [viewAt_update f (clearToIf a v i) i m _ (fun s => hf s none none)]
      exact viewAt_clearToIf f hf a v i m
    · rw [viewAt_update f (clearFromIf a u i) i m _ (fun s => hf s none none)]
      exact viewAt_clearFromIf f hf a u i m
    · rw [viewAt_update f (clearToIf (clearFromIf a u i) v i) i m _
        (fun s => hf s none none)]
      rw [viewAt_clearToIf f hf (clearFromIf a u i) v i m]
      exact viewAt_clearFromIf f hf a u i m

theorem viewAt_isolate_connection {α : Type} (f : LayerRec → α)
    (hf : ∀ (r : LayerRec) (x y : Option Nat),
      f {r with relate_to := x, relate_from := y} = f r)
    (a : Arena) (c : List Nat) (m : Nat) :
    viewAt f (isolate_connection a c) m = viewAt f a m := by
  cases c with
  | nil => rfl
  | cons first rest =>
    show viewAt f (severOutgoing (severIncoming a first) ((first :: rest).getLastD first)) m
      = viewAt f a m
    rw [viewAt_severOutgoing f hf, viewAt_severIncoming f hf]

theorem viewAt_isolateAtom {α : Type} (f : LayerRec → α)
    (hf : ∀ (r : LayerRec) (x y : Option Nat),
      f {r with relate_to := x, relate_from := y} = f r)
    (a : Arena) (x : FragAtom) (m : Nat) :
    viewAt f (isolateAtom a x) m = viewAt f a m := by
  cases x with
  | layer i => exact viewAt_isolate_layer f hf a i m
  | conn c => exact viewAt_isolate_connection f hf a c m

theorem viewAt_foldl_isolate {α : Type} (f : LayerRec → α)
    (hf : ∀ (r : LayerRec) (x y : Option Nat),
      f {r with relate_to := x, relate_from := y} = f r) :
    ∀ (atoms : List FragAtom) (a : Arena) (m : Nat),
      viewAt f (atoms.foldl isolateAtom a) m = viewAt f a m := by
  intro atoms
  induction atoms with
  | nil => intro a m; rfl
  | cons x rest ih =>
    intro a m
    show viewAt f (rest.foldl isolateAtom (isolateAtom a x)) m = viewAt f a m
    rw [ih, viewAt_isolateAtom f hf a x m]

theorem viewAt_linkPair {α : Type} (f : LayerRec → α)
    (hf : ∀ (r : LayerRec) (x y : Option Nat),
      f {r with relate_to := x, relate_from := y} = f r)
    (a : Arena) (i j m : Nat) : viewAt f (linkPair a i j) m = viewAt f a m := by
  unfold linkPair
  rw [viewAt_update f _ j m _ (fun s => hf s s.relate_to (some i))]
  exact viewAt_update f a i m _ (fun s => hf s (some j) s.relate_from)

theorem viewAt_setLinks {α : Type} (f : LayerRec → α)
    (hf : ∀ (r : LayerRec) (x y : Option Nat),
      f {r with relate_to := x, relate_from := y} = f r) :
    ∀ (ps : List (Nat × Nat)) (a : Arena) (m : Nat),
      viewAt f (setLinks a ps) m = viewAt f a m := by
  intro ps
  induction ps with
  | nil => intro a m; rfl
  | cons p rest ih =>
    intro a m
    show viewAt f (setLinks (linkPair a p.1 p.2) rest) m = viewAt f a m
    rw [ih, viewAt_linkPair f hf]

theorem isSome_clearToIf (a : Arena) (j i m : Nat) :
    ((clearToIf a j i).lookup m).isSome = (a.lookup m).isSome :=
  isSome_lookup_update a j m _

theorem isSome_clearFromIf (a : Arena) (j i m : Nat) :
    ((clearFromIf a j i).lookup m).isSome = (a.lookup m).isSome :=
  isSome_lookup_update a j m _

theorem isSome_severIncoming (a : Arena) (i m : Nat) :
    ((severIncoming a i).lookup m).isSome = (a.lookup m).isSome := by
  unfold severIncoming
  cases hl : a.lookup i with
  | none => rfl
  | some r =>
    rcases hfr : r.relate_from with _ | u <;> simp only [hfr]
    · exact isSome_lookup_update a i m _
    · rw [isSome_lookup_update (clearToIf a u i) i m _]
      exact isSome_clearToIf a u i m

theorem isSome_severOutgoing (a : Arena) (i m : Nat) :
    ((severOutgoing a i).lookup m).isSome = (a.lookup m).isSome := by
  unfold severOutgoing
  cases hl : a.lookup i with
  | none => rfl
  | some r =>
    rcases hto : r.relate_to with _ | u <;> simp only [hto]
    · exact isSome_lookup_update a i m _
    · rw [isSome_lookup_update (clearFromIf a u i) i m _]
      exact isSome_clearFromIf a u i m

theorem isSome_isolate_layer (a : Arena) (i m : Nat) :
    ((isolate_layer a i).lookup m).isSome = (a.lookup m).isSome := by
  unfold isolate_layer
  cases hl : a.lookup i with
  | none => rfl
  | some r =>
    rcases hto : r.relate_to with _ | u <;> rcases hfr : r.relate_from with _ | v <;>
      simp only [hto, hfr]
    · exact isSome_lookup_update a i m _
    · rw [isSome_lookup_update (clearToIf a v i) i m _]
      exact isSome_clearToIf a v i m
    · rw [isSome_lookup_update (clearFromIf a u i) i m _]
      exact isSome_clearFromIf a u i m
    · rw [isSome_lookup_update (clearToIf (clearFromIf a u i) v i) i m _]
      rw [isSome_clearToIf (clearFromIf a u i) v i m]
      exact isSome_clearFromIf a u i m

theorem isSome_isolate_connection (a : Arena) (c : List Nat) (m : Nat) :
    ((isolate_connection a c).lookup m).isSome = (a.lookup m).isSome := by
  cases c with
  | nil => rfl
  | cons first rest =>
    show ((severOutgoing (severIncoming a first)
        ((first :: rest).getLastD first)).lookup m).isSome = _
    rw [isSome_severOutgoing, isSome_severIncoming]

theorem isSome_isolateAtom (a : Arena) (x : FragAtom) (m : Nat) :
    ((isolateAtom a x).lookup m).isSome = (a.lookup m).isSome := by
  cases x with
  | layer i => exact isSome_isolate_layer a i m
  | conn c => exact isSome_isolate_connection a c m

theorem isSome_foldl_isolate :
    ∀ (atoms : List FragAtom) (a : Arena) (m : Nat),
      ((atoms.foldl isolateAtom a).lookup m).isSome = (a.lookup m).isSome := by
  intro atoms
  induction atoms with
  | nil => intro a m; rfl
  | cons x rest ih =>
    intro a m
    show ((rest.foldl isolateAtom (isolateAtom a x)).lookup m).isSome = _
    rw [ih, isSome_isolateAtom a x m]

theorem isSome_linkPair (a : Arena) (i j m : Nat) :
    ((linkPair a i j).lookup m).isSome = (a.lookup m).isSome := by
  unfold linkPair
  rw [isSome_lookup_update _ j m _]
  exact isSome_lookup_update a i m _

theorem relToAt_linkPair_self (a : Arena) (i j : Nat)
    (hs : (a.lookup i).isSome = true) : relToAt (linkPair a i j) i = some j := by
  show LayerRec.relate_to ((((a.update i _).update j _).lookup i).getD default) = some j
  by_cases hij : i = j
  · subst hij
    rw [lookup_update_self, lookup_update_self]
    cases hl : a.lookup i with
    | none => rw [hl] at hs; exact absurd hs (by simp)
    | some r => rfl
  · rw [lookup_update_ne _ j i _ hij, lookup_update_self]
    cases hl : a.lookup i with
    | none => rw [hl] at hs; exact absurd hs (by simp)
    | some r => rfl

theorem relFromAt_linkPair_self (a : Arena) (i j : Nat)
    (hs : (a.lookup j).isSome = true) : relFromAt (linkPair a i j) j = some i := by
  show LayerRec.relate_from ((((a.update i _).update j _).lookup j).getD default) = some i
  rw [lookup_update_self]
  by_cases hij : j = i
  · subst hij
    rw [lookup_update_self]
    cases hl : a.lookup j with
    | none => rw [hl] at hs; exact absurd hs (by simp)
    | some r => rfl
  · rw [lookup_update_ne a i j _ hij]
    cases hl : a.lookup j with
    | none => rw [hl] at hs; exact absurd hs (by simp)
    | some r => rfl

theorem relToAt_linkPair_ne (a : Arena) (i j m : Nat) (hm : m ≠ i) :
    relToAt (linkPair a i j) m = relToAt a m := by
  show LayerRec.relate_to ((((a.update i _).update j _).lookup m).getD default)
    = LayerRec.relate_to ((a.lookup m).getD default)
  by_cases hmj : m = j
  · subst hmj
    rw [lookup_update_self, lookup_update_ne a i m _ hm]
    cases hl : a.lookup m with
    | none => rfl
    | some r => rfl
  · rw [lookup_update_ne _ j m _ hmj, lookup_update_ne a i m _ hm]

theorem relFromAt_linkPair_ne (a : Arena) (i j m : Nat) (hm : m ≠ j) :
    relFromAt (linkPair a i j) m = relFromAt a m := by
  show LayerRec.relate_from ((((a.update i _).update j _).lookup m).getD default)
    = LayerRec.relate_from ((a.lookup m).getD default)
  rw [lookup_update_ne _ j m _ hm]
  by_cases hmi : m = i
  · subst hmi
    rw [lookup_update_self]
    cases hl : a.lookup m with
    | none => rfl
    | some r => rfl
  · rw [lookup_update_ne a i m _ hmi]

theorem relToAt_setLinks_notMem :
    ∀ (ps : List (Nat × Nat)) (a : Arena) (m : Nat), m ∉ ps.map Prod.fst →
      relToAt (setLinks a ps) m = relToAt a m := by
  intro ps
  induction ps with
  | nil => intro a m _; rfl
  | cons p rest ih =>
    intro a m hm
    have hm1 : m ≠ p.1 := fun h => hm (by simp [h])
    have hm2 : m ∉ rest.map Prod.fst := fun h => hm (by simp [h])
    show relToAt (setLinks (linkPair a p.1 p.2) rest) m = relToAt a m
    rw [ih _ m hm2, relToAt_linkPair_ne _ _ _ _ hm1]

theorem relFromAt_setLinks_notMem :
    ∀ (ps : List (Nat × Nat)) (a : Arena) (m : Nat), m ∉ ps.map Prod.snd →
      relFromAt (setLinks a ps) m = relFromAt a m := by
  intro ps
  induction ps with
  | nil => intro a m _; rfl
  | cons p rest ih =>
    intro a m hm
    have hm1 : m ≠ p.2 := fun h => hm (by simp [h])
    have hm2 : m ∉ rest.map Prod.snd := fun h => hm (by simp [h])
    show relFromAt (setLinks (linkPair a p.1 p.2) rest) m = relFromAt a m
    rw [ih _ m hm2, relFromAt_linkPair_ne _ _ _ _ hm1]

theorem setLinks_links :
    ∀ (ps : List (Nat × Nat)) (a : Arena),
      (ps.map Prod.fst).Nodup → (ps.map Prod.snd).Nodup →
      (∀ p ∈ ps, (a.lookup p.1).isSome = true ∧ (a.lookup p.2).isSome = true) →
      ∀ p ∈ ps, relToAt (setLinks a ps) p.1 = some p.2
        ∧ relFromAt (setLinks a ps) p.2 = some p.1 := by
  intro ps
  induction ps with
  | nil => intro a _ _ _ p hp; exact absurd hp (List.not_mem_nil p)
  | cons q rest ih =>
    intro a hnd1 hnd2 hpres p hp
    simp only [List.map_cons, List.nodup_cons] at hnd1 hnd2
    rcases List.mem_cons.mp hp with hpq | hpr
    · subst hpq
      constructor
      · show relToAt (setLinks (linkPair a p.1 p.2) rest) p.1 = some p.2
        rw [relToAt_setLinks_notMem rest _ p.1 hnd1.1]
        exact relToAt_linkPair_self a p.1 p.2 (hpres p (List.mem_cons_self p rest)).1
      · show relFromAt (setLinks (linkPair a p.1 p.2) rest) p.2 = some p.1
        rw [relFromAt_setLinks_notMem rest _ p.2 hnd2.1]
        exact relFromAt_linkPair_self a p.1 p.2 (hpres p (List.mem_cons_self p rest)).2
    · show relToAt (setLinks (linkPair a q.1 q.2) rest) p.1 = some p.2
        ∧ relFromAt (setLinks (linkPair a q.1 q.2) rest) p.2 = some p.1
      refine ih (linkPair a q.1 q.2) hnd1.2 hnd2.2 ?_ p hpr
      intro w hw
      have := hpres w (List.mem_cons_of_mem q hw)
      rw [isSome_linkPair, isSome_linkPair]
      exact this

theorem idsOfAtoms_flatten (frags : List Fragment) :
    idsOfAtoms (atomsOf frags)
      = (frags.map (fun fr => idsOfAtoms fr.flatten)).flatten := by
  unfold atomsOf idsOfAtoms
  induction frags with
  | nil => rfl
  | cons f rest ih =>
    simp only [List.map_cons, List.flatten_cons, List.map_append,
      List.flatten_append, ih]

theorem headD_mem (c : List Nat) (d : Nat) (h : c ≠ []) : c.headD d ∈ c := by
  cases c with
  | nil => exact absurd rfl h
  | cons x xs => exact List.mem_cons_self x xs

theorem getLastD_mem : ∀ (c : List Nat) (d : Nat), c ≠ [] → c.getLastD d ∈ c := by
  intro c
  induction c with
  | nil => intro d h; exact absurd rfl h
  | cons x xs ih =>
    intro d h
    cases xs with
    | nil => exact List.mem_cons_self x []
    | cons y ys =>
      show (x :: y :: ys).getLastD d ∈ x :: y :: ys
      have : (x :: y :: ys).getLastD d = (y :: ys).getLastD x := rfl
      rw [this]
      exact List.mem_cons_of_mem x (ih x (by simp))

theorem firstIdOf_mem (x : FragAtom) (h : atomIds x ≠ []) :
    firstIdOf x ∈ atomIds x := by
  cases x with
  | layer i => exact List.mem_cons_self i []
  | conn c => exact headD_mem c 0 h

theorem lastIdOf_mem (x : FragAtom) (h : atomIds x ≠ []) :
    lastIdOf x ∈ atomIds x := by
  cases x with
  | layer i => exact List.mem_cons_self i []
  | conn c => exact getLastD_mem c 0 h

theorem mem_idsOfAtoms {atoms : List FragAtom} {x : FragAtom} (hx : x ∈ atoms)
    {i : Nat} (hi : i ∈ atomIds x) : i ∈ idsOfAtoms atoms :=
  List.mem_flatten.mpr ⟨atomIds x, List.mem_map_of_mem atomIds hx, hi⟩

theorem boundaryPairs_mem :
    ∀ (atoms : List FragAtom) (p : Nat × Nat), p ∈ boundaryPairs atoms →
      (∃ x ∈ atoms, p.1 = lastIdOf x) ∧ (∃ y ∈ atoms, p.2 = firstIdOf y) := by
  intro atoms
  induction atoms with
  | nil => intro p hp; exact absurd hp (List.not_mem_nil p)
  | cons x rest ih =>
    intro p hp
    cases rest with
    | nil => exact absurd hp (List.not_mem_nil p)
    | cons y rest2 =>
      simp only [boundaryPairs] at hp
      rcases List.mem_cons.mp hp with hp | hp
      · subst hp
        exact ⟨⟨x, List.mem_cons_self _ _, rfl⟩, ⟨y, by simp, rfl⟩⟩
      · obtain ⟨⟨u, hu, hu2⟩, ⟨v, hv, hv2⟩⟩ := ih p hp
        exact ⟨⟨u, List.mem_cons_of_mem x hu, hu2⟩,
          ⟨v, List.mem_cons_of_mem x hv, hv2⟩⟩

/-- The sewing contract (spec 4.4): the result spans all fragments in input
order, its shape sequence is the in-order concatenation of the fragments'
shape sequences as they were before sewing, and every pair of consecutive
fragments is linked tail-to-head with reciprocal relations. -/
def SewTogether (a : Arena) (frags : List Fragment) (a2 : Arena)
    (r : CutResult) : Prop :=
  resIds r = idsOfAtoms (atomsOf frags)
  ∧ resIds r = (frags.map (fun fr => idsOfAtoms fr.flatten)).flatten
  ∧ (resIds r).map (sizeAt a2)
      = (frags.map (fun fr => (idsOfAtoms fr.flatten).map (sizeAt a))).flatten
  ∧ ∀ p ∈ boundaryPairs (atomsOf frags),
      relToAt a2 p.1 = some p.2 ∧ relFromAt a2 p.2 = some p.1

/-- C4: for a sequence of already-independent fragments on which sewing
succeeds, `sew_together` links the fragments pairwise tail-to-head, preserving
input order, and the resulting shape sequence is the in-order concatenation of
the fragments' shape sequences. -/
theorem sew_together_concat (a : Arena) (frags : List Fragment) (a2 : Arena)
    (r : CutResult)
    (hatoms : ∀ x ∈ atomsOf frags, atomIds x ≠ [])
    (hpres : presentAll a (idsOfAtoms (atomsOf frags)) = true)
    (hsrc : ((boundaryPairs (atomsOf frags)).map Prod.fst).Nodup)
    (htgt : ((boundaryPairs (atomsOf frags)).map Prod.snd).Nodup)
    (hsew : sew_together a frags = Except.ok (a2, some r)) :
    SewTogether a frags a2 r := by
  unfold sew_together at hsew
  by_cases hemp : (atomsOf frags).isEmpty
  · rw [if_pos hemp] at hsew
    have := congrArg Prod.snd ((Except.ok.injEq _ _).mp hsew)
    exact absurd this (by simp)
  rw [if_neg hemp] at hsew
  by_cases hjun : junctionsOk a (atomsOf frags)
  case neg => rw [if_neg hjun] at hsew; exact absurd hsew (by simp)
  rw [if_pos hjun] at hsew
  have hpr := (Except.ok.injEq _ _).mp hsew
  have ha2 : setLinks ((atomsOf frags).foldl isolateAtom a)
      (boundaryPairs (atomsOf frags)) = a2 := congrArg Prod.fst hpr
  have hrr : some (mkSeg (idsOfAtoms (atomsOf frags))) = some r :=
    congrArg Prod.snd hpr
  have hr : r = mkSeg (idsOfAtoms (atomsOf frags)) := (Option.some_inj.mp hrr).symm
  have hids : resIds r = idsOfAtoms (atomsOf frags) := by rw [hr, resIds_mkSeg]
  have hszpt : ∀ m, sizeAt a2 m = sizeAt a m := by
    intro m
    rw [← ha2]
    show viewAt LayerRec.size _ m = viewAt LayerRec.size a m
    rw [viewAt_setLinks LayerRec.size (fun r x y => rfl) _ _ m]
    exact viewAt_foldl_isolate LayerRec.size (fun r x y => rfl) _ a m
  refine ⟨hids, ?_, ?_, ?_⟩
  · rw [hids, idsOfAtoms_flatten]
  · rw [hids]
    have h1 : (idsOfAtoms (atomsOf frags)).map (sizeAt a2)
        = (idsOfAtoms (atomsOf frags)).map (sizeAt a) :=
      List.map_congr_left (fun m _ => hszpt m)
    rw [h1, idsOfAtoms_flatten, List.map_flatten, List.map_map]
    rfl
  · intro p hp
    have hpresL : ∀ q ∈ boundaryPairs (atomsOf frags),
        (((atomsOf frags).foldl isolateAtom a).lookup q.1).isSome = true
        ∧ (((atomsOf frags).foldl isolateAtom a).lookup q.2).isSome = true := by
      intro q hq
      obtain ⟨⟨u, hu, hq1⟩, ⟨v, hv, hq2⟩⟩ := boundaryPairs_mem (atomsOf frags) q hq
      constructor
      · rw [isSome_foldl_isolate, hq1]
        exact presentAll_mem a _ hpres
          (mem_idsOfAtoms hu (lastIdOf_mem u (hatoms u hu)))
      · rw [isSome_foldl_isolate, hq2]
        exact presentAll_mem a _ hpres
          (mem_idsOfAtoms hv (firstIdOf_mem v (hatoms v hv)))
    have hlinks := setLinks_links (boundaryPairs (atomsOf frags))
      ((atomsOf frags).foldl isolateAtom a) hsrc htgt hpresL p hp
    rw [← ha2]
    exact hlinks

/-- Example arena for sewing: Sigmoid 24, the chain Sigmoid 12 > Sigmoid 6,
and Sigmoid 3, as in test_sew_together_basic. -/
def exSewArena : Arena :=
  ⟨[(0, ⟨LayerKind.sigmoid, 24, none, 1, none, none⟩),
    (1, ⟨LayerKind.sigmoid, 12, none, 2, some 2, none⟩),
    (2, ⟨LayerKind.sigmoid, 6, none, 3, none, some 1⟩),
    (3, ⟨LayerKind.sigmoid, 3, none, 4, none, none⟩)], 4⟩

def exSewFrags : List Fragment :=
  [Fragment.atom (FragAtom.layer 0),
   Fragment.atom (FragAtom.conn [1, 2]),
   Fragment.atom (FragAtom.layer 3)]

/-- The arena produced by sewing the example fragments. -/
def exSewOut : Arena :=
  setLinks ((atomsOf exSewFrags).foldl isolateAtom exSewArena)
    (boundaryPairs (atomsOf exSewFrags))

theorem sew_together_concat_witness :
    (∀ x ∈ atomsOf exSewFrags, atomIds x ≠ [])
    ∧ presentAll exSewArena (idsOfAtoms (atomsOf exSewFrags)) = true
    ∧ ((boundaryPairs (atomsOf exSewFrags)).map Prod.fst).Nodup
    ∧ ((boundaryPairs (atomsOf exSewFrags)).map Prod.snd).Nodup
    ∧ SewTogether exSewArena exSewFrags exSewOut (CutResult.conn [0, 1, 2, 3]) :=
  ⟨by decide, by decide, by decide, by decide,
    sew_together_concat exSewArena exSewFrags exSewOut (CutResult.conn [0, 1, 2, 3])
      (by decide) (by decide) (by decide) (by decide) rfl⟩

theorem take_one_drop : ∀ (l : List Nat) (n : Nat), n < l.length →
    (l.drop n).take 1 = [l.getD n 0] := by
  intro l
  induction l with
  | nil => intro n h; simp at h
  | cons x xs ih =>
    intro n h
    cases n with
    | zero => rfl
    | succ m =>
      show (xs.drop m).take 1 = [xs.getD m 0]
      exact ih m (by simp at h; omega)

/-- The single-layer-cut contract: a bare cloned layer, fresh identity, copied
parameters, preserved shape, no topology links, not wrapped in a connection. -/
def CutSingle (a : Arena) (c : List Nat) (start : Nat) (stop : Int) : Prop :=
  ∃ a2, cut a (CutInput.connection c) start stop
      = Except.ok (a2, CutResult.layer a.nextId)
    ∧ a.lookup a.nextId = none
    ∧ kindAt a2 a.nextId = kindAt a (c.getD start 0)
    ∧ sizeAt a2 a.nextId = sizeAt a (c.getD start 0)
    ∧ inSizeAt a2 a.nextId = inSizeAt a (c.getD start 0)
    ∧ weightAt a2 a.nextId = weightAt a (c.getD start 0)
    ∧ relToAt a2 a.nextId = none
    ∧ relFromAt a2 a.nextId = none

/-- A one-layer sewing result is returned as the bare layer, not wrapped. -/
def SewSingleUnwrap (a : Arena) : Prop :=
  ∀ (frags : List Fragment) (a2 : Arena) (r : CutResult) (i : Nat),
    sew_together a frags = Except.ok (a2, some r) →
    idsOfAtoms (atomsOf frags) = [i] → r = CutResult.layer i

/-- C5: a cut whose range selects exactly one layer returns a bare cloned
layer (fresh identity, copied parameters, shape preserved, no topology links)
not wrapped in a connection; likewise a one-layer `sew_together` result is
returned unwrapped. -/
theorem cut_single_layer_unwrapped (a : Arena) (c : List Nat) (start : Nat)
    (stop : Int) (hwf : a.wfb = true)
    (hres : resolveEnd stop c.length = (start : Int) + 1)
    (hlt : start < c.length) :
    CutSingle a c start stop ∧ SewSingleUnwrap a := by
  constructor
  · unfold CutSingle
    simp only [cut, normalizeConnection]
    rw [hres, if_pos (by constructor <;> omega)]
    have ht : (((start : Int)) + 1).toNat = start + 1 := by omega
    rw [ht]
    have ht2 : start + 1 - start = 1 := by omega
    rw [ht2, take_one_drop c start hlt]
    have hkeys : ∀ q ∈ a.recs, q.1 ≠ a.nextId := fun q hq => by
      have := wfb_key_lt hwf hq; omega
    have hlk : (cloneGroup a [c.getD start 0]).1.lookup a.nextId
        = some { (a.lookup (c.getD start 0)).getD default with
                 relate_to := none, relate_from := none } := by
      show alook (a.recs ++ cloneRecs a a.nextId 0 [c.getD start 0]) a.nextId = _
      rw [alook_append_right _ _ _ (alook_eq_none _ _ hkeys)]
      simp [alook, cloneRecs]
    refine ⟨(cloneGroup a [c.getD start 0]).1, rfl,
      alook_eq_none _ _ hkeys, ?_, ?_, ?_, ?_, ?_, ?_⟩
    · show LayerRec.kind (((cloneGroup a [c.getD start 0]).1.lookup a.nextId).getD default)
        = LayerRec.kind ((a.lookup (c.getD start 0)).getD default)
      rw [hlk]
      rfl
    · show LayerRec.size (((cloneGroup a [c.getD start 0]).1.lookup a.nextId).getD default)
        = LayerRec.size ((a.lookup (c.getD start 0)).getD default)
      rw [hlk]
      rfl
    · show LayerRec.inSize (((cloneGroup a [c.getD start 0]).1.lookup a.nextId).getD default)
        = LayerRec.inSize ((a.lookup (c.getD start 0)).getD default)
      rw [hlk]
      rfl
    · show LayerRec.weight (((cloneGroup a [c.getD start 0]).1.lookup a.nextId).getD default)
        = LayerRec.weight ((a.lookup (c.getD start 0)).getD default)
      rw [hlk]
      rfl
    · show LayerRec.relate_to (((cloneGroup a [c.getD start 0]).1.lookup a.nextId).getD default)
        = none
      rw [hlk]
      rfl
    · show LayerRec.relate_from (((cloneGroup a [c.getD start 0]).1.lookup a.nextId).getD default)
        = none
      rw [hlk]
      rfl
  · intro frags a2 r i hsew hid
    unfold sew_together at hsew
    by_cases hemp : (atomsOf frags).isEmpty
    · rw [if_pos hemp] at hsew
      have := congrArg Prod.snd ((Except.ok.injEq _ _).mp hsew)
      exact absurd this (by simp)
    rw [if_neg hemp] at hsew
    by_cases hjun : junctionsOk a (atomsOf frags)
    case neg => rw [if_neg hjun] at hsew; exact absurd hsew (by simp)
    rw [if_pos hjun] at hsew
    have hpr := (Except.ok.injEq _ _).mp hsew
    have hrr := congrArg Prod.snd hpr
    have hr : r = mkSeg (idsOfAtoms (atomsOf frags)) := (Option.some_inj.mp hrr).symm
    rw [hr, hid]
    rfl

theorem cut_single_layer_unwrapped_witness :
    exNet.wfb = true ∧ resolveEnd 1 exConn.length = ((0 : Nat) : Int) + 1
    ∧ 0 < exConn.length
    ∧ (CutSingle exNet exConn 0 1 ∧ SewSingleUnwrap exNet) :=
  ⟨by decide, by decide, by decide,
    cut_single_layer_unwrapped exNet exConn 0 1 (by decide) (by decide) (by decide)⟩

/-- C7: `isolate_connection_if_needed` succeeds when given a single Layer
(dispatching to layer isolation) or a Connection (dispatching to connection
isolation), and raises TypeError for any input of any other type. -/
theorem isolate_connection_if_needed_dispatch (a : Arena) (i : Nat) (c : List Nat) :
    isolate_connection_if_needed a (ConnObj.layer i) = Except.ok (isolate_layer a i)
    ∧ isolate_connection_if_needed a (ConnObj.conn c) = Except.ok (isolate_connection a c)
    ∧ isolate_connection_if_needed a ConnObj.other = Except.error PyError.typeError :=
  ⟨rfl, rfl, rfl⟩

/-- PNN state (src/neupy/algorithms/rbfn/pnn.py): numpy arrays are modelled as
rational matrices (lists of rows).  `classes` is None until `train` runs. -/
structure PNNState where
  std : Rat
  classes : Option (List Int)
  input_train : List (List Rat)
  row_comb_matrix : List (List Rat)
  class_ratios : List Rat
deriving DecidableEq, Repr

/-- PNN.__init__ (pnn.py lines 63-65): classes starts as None. -/
def PNNinit (std : Rat) : PNNState :=
  ⟨std, none, [], [], []⟩

def insertSorted (x : Int) : List Int → List Int
  | [] => [x]
  | y :: ys => if x ≤ y then x :: y :: ys else y :: insertSorted x ys

/-- np.unique: the sorted distinct values of a vector. -/
def npUnique (l : List Int) : List Int :=
  (l.foldr insertSorted []).dedup

/-- PNN.train (pnn.py lines 67-106): stores the training data, the sorted
distinct classes, the class-membership matrix and the per-class sample counts.
The source compares targets against the class index i (line 104,
target_train == i), which the model reproduces. -/
def PNN.train (st : PNNState) (input_train : List (List Rat))
    (target_train : List Int) : PNNState :=
  let classes := npUnique target_train
  let n_classes := classes.length
  { st with
    classes := some classes,
    input_train := input_train,
    row_comb_matrix := (List.range n_classes).map
      (fun i => target_train.map (fun t => if t = (i : Int) then (1 : Rat) else 0)),
    class_ratios := (List.range n_classes).map
      (fun i => ((target_train.filter (fun t => decide (t = (i : Int)))).length : Rat)) }

/-- arr.shape[1] of a 2-D numpy array modelled as a list of rows. -/
def featureCount (data : List (List Rat)) : Nat :=
  (data.headD []).length

def dotRow (u v : List Rat) : Rat :=
  ((u.zip v).map (fun p => p.1 * p.2)).foldl (fun s x => s + x) 0

def matMul (A B : List (List Rat)) : List (List Rat) :=
  A.map (fun row => B.transpose.map (dotRow row))

/-- PNN.predict_raw (pnn.py lines 133-168): raises NotTrainedException before
training; once trained, raises ValueError exactly when the input feature count
differs from the stored training data's; otherwise returns the class-wise
output matrix.  The probability-density kernel pdf_between_data lives outside
src/, so it is taken as the parameter `pdf`. -/
def predict_raw (pdf : List (List Rat) → List (List Rat) → Rat → List (List Rat))
    (st : PNNState) (input_data : List (List Rat)) :
    Except PyError (List (List Rat)) :=
  match st.classes with
  | none => Except.error PyError.notTrainedException
  | some _ =>
    if featureCount input_data ≠ featureCount st.input_train then
      Except.error PyError.valueError
    else
      let pdf_outputs := pdf st.input_train input_data st.std
      let raw := matMul st.row_comb_matrix pdf_outputs
      Except.ok ((raw.zip st.class_ratios).map
        (fun p => p.1.map (fun x => x / p.2)))

/-- C8: predict_raw raises NotTrainedException whenever it is called before
train has stored classes (train always stores them); once trained it raises
ValueError if and only if the input feature count differs from the stored
training data's, and otherwise returns an output without raising. -/
theorem pnn_predict_raw_guards
    (pdf : List (List Rat) → List (List Rat) → Rat → List (List Rat))
    (st : PNNState) (input_data inp : List (List Rat)) (tgt : List Int) :
    (st.classes = none → predict_raw pdf st input_data
        = Except.error PyError.notTrainedException)
    ∧ ((PNN.train st inp tgt).classes).isSome = true
    ∧ (st.classes.isSome = true →
        (predict_raw pdf st input_data = Except.error PyError.valueError
          ↔ featureCount input_data ≠ featureCount st.input_train))
    ∧ (st.classes.isSome = true →
        featureCount input_data = featureCount st.input_train →
        (predict_raw pdf st input_data).isOk = true) := by
  refine ⟨?_, rfl, ?_, ?_⟩
  · intro h
    unfold predict_raw
    rw [h]
  · intro hsome
    cases hcl : st.classes with
    | none => rw [hcl] at hsome; exact absurd hsome (by simp)
    | some cls =>
      unfold predict_raw
      rw [hcl]
      by_cases hf : featureCount input_data ≠ featureCount st.input_train
      · rw [if_pos hf]
        exact ⟨fun _ => hf, fun _ => rfl⟩
      · rw [if_neg hf]
        constructor
        · intro h; exact absurd h (by simp)
        · intro h; exact absurd h hf
  · intro hsome hf
    cases hcl : st.classes with
    | none => rw [hcl] at hsome; exact absurd hsome (by simp)
    | some cls =>
      unfold predict_raw
      rw [hcl, if_neg (fun hne => hne hf)]
      rfl

def pdf0 : List (List Rat) → List (List Rat) → Rat → List (List Rat) :=
  fun _ _ _ => []

def exPNN : PNNState := PNN.train (PNNinit 1) [[1, 2]] [0]

theorem pnn_predict_raw_guards_witness :
    predict_raw pdf0 (PNNinit 1) [[1, 2]] = Except.error PyError.notTrainedException
    ∧ exPNN.classes.isSome = true
    ∧ predict_raw pdf0 exPNN [[1, 2, 3]] = Except.error PyError.valueError
    ∧ (predict_raw pdf0 exPNN [[3, 4]]).isOk = true :=
  ⟨(pnn_predict_raw_guards pdf0 (PNNinit 1) [[1, 2]] [] []).1 rfl,
    rfl,
    ((pnn_predict_raw_guards pdf0 exPNN [[1, 2, 3]] [] []).2.2.1 rfl).mpr (by decide),
    (pnn_predict_raw_guards pdf0 exPNN [[3, 4]] [] []).2.2.2 rfl (by decide)⟩

/-- find_opposite_axes (src/neupy/layers/normalization.py lines 17-50): the
axes missing from the given list, ValueError when an axis is out of range. -/
def find_opposite_axes (axes : List Nat) (ndim : Nat) :
    Except PyError (List Nat) :=
  if axes.any (fun axis => decide (axis ≥ ndim)) then
    Except.error PyError.valueError
  else
    Except.ok ((List.range ndim).filter (fun axis => decide (axis ∉ axes)))

/-- C9: for axes all below ndim, find_opposite_axes returns exactly the
integers in range ndim that are not in axes, in increasing order, so that the
result and axes partition range ndim; it raises ValueError whenever some axis
is at least ndim. -/
theorem find_opposite_axes_spec (axes : List Nat) (ndim : Nat) :
    ((∃ ax ∈ axes, ndim ≤ ax) →
      find_opposite_axes axes ndim = Except.error PyError.valueError)
    ∧ ((∀ ax ∈ axes, ax < ndim) →
      ∃ l, find_opposite_axes axes ndim = Except.ok l
        ∧ List.Sorted (fun x y => x < y) l
        ∧ (∀ i, i ∈ l ↔ i < ndim ∧ i ∉ axes)
        ∧ (∀ i, i < ndim → (i ∈ axes ∨ i ∈ l) ∧ ¬(i ∈ axes ∧ i ∈ l))) := by
  constructor
  · intro h
    obtain ⟨ax, hax, hge⟩ := h
    unfold find_opposite_axes
    rw [if_pos (List.any_eq_true.mpr ⟨ax, hax, decide_eq_true (by omega)⟩)]
  · intro h
    unfold find_opposite_axes
    rw [if_neg (fun hany => by
      obtain ⟨ax, hax, hd⟩ := List.any_eq_true.mp hany
      have := h ax hax
      have := of_decide_eq_true hd
      omega)]
    refine ⟨_, rfl, ?_, ?_, ?_⟩
    · exact List.Pairwise.filter _ (List.pairwise_lt_range ndim)
    · intro i
      simp [List.mem_filter, List.mem_range]
    · intro i hi
      constructor
      · by_cases hm : i ∈ axes
        · exact Or.inl hm
        · exact Or.inr (List.mem_filter.mpr ⟨List.mem_range.mpr hi, by simp [hm]⟩)
      · intro hand
        have := List.mem_filter.mp hand.2
        exact absurd hand.1 (by simpa using this.2)

theorem find_opposite_axes_spec_witness :
    find_opposite_axes [5] 4 = Except.error PyError.valueError
    ∧ (∀ ax ∈ [0, 1], ax < 4)
    ∧ ∃ l, find_opposite_axes [0, 1] 4 = Except.ok l
        ∧ List.Sorted (fun x y => x < y) l
        ∧ (∀ i, i ∈ l ↔ i < 4 ∧ i ∉ [0, 1])
        ∧ (∀ i, i < 4 → (i ∈ [0, 1] ∨ i ∈ l) ∧ ¬(i ∈ [0, 1] ∧ i ∈ l)) :=
  ⟨(find_opposite_axes_spec [5] 4).1 (by decide), by decide,
    (find_opposite_axes_spec [0, 1] 4).2 (by decide)⟩

/-- The default normalization axes: every axis except axis 1
(normalization.py line 112). -/
def bnDefaultAxes (ndim : Nat) : List Nat :=
  (List.range ndim).filter (fun axis => axis != 1)

/-- The axes opposite to the default axes. -/
def bnOppositeAxes (ndim : Nat) : List Nat :=
  (List.range ndim).filter (fun axis => decide (axis ∉ bnDefaultAxes ndim))

/-- The input-shape dimensions on the opposite axes, reading the
(batch, *input_shape) tensor whose batch dimension is unknown. -/
def bnParamDims (input_shape : List (Option Nat)) : List (Option Nat) :=
  (bnOppositeAxes (input_shape.length + 1)).map
    (fun axis => (none :: input_shape).getD axis none)

/-- The shapes created by BatchNorm parameter initialization. -/
structure BNInit where
  axes : List Nat
  gammaShape : List Nat
  betaShape : List Nat
  runningMeanShape : List Nat
  runningInvStdShape : List Nat
deriving DecidableEq, Repr

/-- A gamma or beta option of BatchNorm: either an Initializer instance (as
with the default `Constant` values), which is sampled to the computed
parameter shape, or an array-like value that carries its own shape (a scalar
being the zero-dimensional array). -/
inductive BNParam
  | init
  | array (shape : List Nat)
deriving DecidableEq, Repr

/-- The shape of the created gamma or beta shared variable
(normalization.py lines 136-149): an Initializer is sampled to the computed
parameter shape; an array-like value keeps its own shape. -/
def bnParamShape (p : BNParam) (parameter_shape : List Nat) : List Nat :=
  match p with
  | BNParam.init => parameter_shape
  | BNParam.array s => s

/-- BatchNorm parameter creation (src/neupy/layers/normalization.py lines
103-150), modelled on shapes: prepends the unknown batch axis to the declared
input shape, defaults axes to every axis except 1, validates the axes,
computes the opposite axes and the parameter shape from them, raises
ValueError when an involved dimension is unknown, and creates running_mean
and running_inv_std with that parameter shape; gamma and beta get that shape
only when they are Initializer instances (the isinstance branches at lines
136-140), and otherwise keep the shape of the given array value. -/
def batchNormSetup (axesOpt : Option (List Nat)) (gamma beta : BNParam)
    (input_shape : List (Option Nat)) : Except PyError BNInit :=
  let full : List (Option Nat) := none :: input_shape
  let ndim := full.length
  let axes := match axesOpt with
    | none => bnDefaultAxes ndim
    | some axs => axs
  if axes.any (fun axis => decide (axis ≥ ndim)) then
    Except.error PyError.valueError
  else
    match find_opposite_axes axes ndim with
    | Except.error e => Except.error e
    | Except.ok opposite_axes =>
      let parameter_shape := opposite_axes.map (fun axis => full.getD axis none)
      if parameter_shape.any (fun d => d.isNone) then
        Except.error PyError.valueError
      else
        let shp := parameter_shape.map (fun d => d.getD 0)
        Except.ok ⟨axes, bnParamShape gamma shp, bnParamShape beta shp, shp, shp⟩

/-- C10 (amended): with axes = None, BatchNorm initialization sets axes to
every axis of the (batch, *input_shape) tensor except axis 1; running_mean and
running_inv_std are always created with shape equal to the input-shape
dimensions on the remaining (opposite) axes, and gamma and beta get that shape
exactly when they are Initializer instances (as with the defaults), while an
array-valued gamma or beta keeps its own shape; if one of the opposite-axes
dimensions is unknown (None) it raises ValueError instead of creating
parameters. -/
theorem batchNorm_default_axes (gamma beta : BNParam)
    (input_shape : List (Option Nat)) :
    (∀ i, i ∈ bnDefaultAxes (input_shape.length + 1)
        ↔ i < input_shape.length + 1 ∧ i ≠ 1)
    ∧ (∀ i, i ∈ bnOppositeAxes (input_shape.length + 1)
        ↔ i < input_shape.length + 1 ∧ i ∉ bnDefaultAxes (input_shape.length + 1))
    ∧ ((∀ d ∈ bnParamDims input_shape, d.isSome = true) →
        batchNormSetup none gamma beta input_shape = Except.ok
          ⟨bnDefaultAxes (input_shape.length + 1),
           bnParamShape gamma ((bnParamDims input_shape).map (fun d => d.getD 0)),
           bnParamShape beta ((bnParamDims input_shape).map (fun d => d.getD 0)),
           (bnParamDims input_shape).map (fun d => d.getD 0),
           (bnParamDims input_shape).map (fun d => d.getD 0)⟩)
    ∧ ((∃ d ∈ bnParamDims input_shape, d = none) →
        batchNormSetup none gamma beta input_shape
          = Except.error PyError.valueError) := by
  have hnot : ¬ ((bnDefaultAxes (input_shape.length + 1)).any
      (fun axis => decide (axis ≥ input_shape.length + 1)) = true) := by
    intro hany
    obtain ⟨ax, haxm, hd⟩ := List.any_eq_true.mp hany
    have h1 := List.mem_range.mp (List.mem_filter.mp haxm).1
    have h2 := of_decide_eq_true hd
    omega
  have hopp : find_opposite_axes (bnDefaultAxes (input_shape.length + 1))
      (input_shape.length + 1)
      = Except.ok (bnOppositeAxes (input_shape.length + 1)) := by
    unfold find_opposite_axes bnOppositeAxes
    rw [if_neg hnot]
  refine ⟨?_, ?_, ?_, ?_⟩
  · intro i
    simp [bnDefaultAxes, List.mem_filter, List.mem_range]
  · intro i
    simp [bnOppositeAxes, List.mem_filter, List.mem_range]
  · intro hall
    unfold batchNormSetup
    simp only [List.length_cons]
    rw [if_neg hnot, hopp]
    have hnone : ¬ (((bnOppositeAxes (input_shape.length + 1)).map
        (fun axis => (none :: input_shape).getD axis none)).any
        (fun d => d.isNone) = true) := by
      intro hany
      obtain ⟨d, hdm, hd⟩ := List.any_eq_true.mp hany
      have hs := hall d hdm
      cases d with
      | none => exact absurd hs (by simp)
      | some v => exact absurd hd (by simp)
    split
    · rename_i e heq
      exact absurd heq (by simp)
    · rename_i opp heq
      have hoppEq : bnOppositeAxes (input_shape.length + 1) = opp :=
        (Except.ok.injEq _ _).mp heq
      subst hoppEq
      rw [if_neg hnone]
      rfl
  · intro hex
    unfold batchNormSetup
    simp only [List.length_cons]
    rw [if_neg hnot, hopp]
    have hnone : ((bnOppositeAxes (input_shape.length + 1)).map
        (fun axis => (none :: input_shape).getD axis none)).any
        (fun d => d.isNone) = true := by
      obtain ⟨d, hdm, hdn⟩ := hex
      exact List.any_eq_true.mpr ⟨d, hdm, by rw [hdn]; rfl⟩
    split
    · rename_i e heq
      exact absurd heq (by simp)
    · rename_i opp heq
      have hoppEq : bnOppositeAxes (input_shape.length + 1) = opp :=
        (Except.ok.injEq _ _).mp heq
      subst hoppEq
      rw [if_pos hnone]

/-- C10 counterexample: for a BatchNorm layer with axes = None whose gamma is
an array-valued parameter of shape [7], initialization succeeds but the
created gamma keeps shape [7] while the input-shape dimensions on the
opposite axes are [3] — so not all four parameters get the opposite-axes
shape, refuting the claim as stated. -/
theorem batchNorm_array_gamma_counterexample :
    (bnParamDims [some 3, some 4, some 5]).map (fun d => d.getD 0) = [3]
    ∧ batchNormSetup none (BNParam.array [7]) BNParam.init [some 3, some 4, some 5]
        = Except.ok ⟨[0, 2, 3], [7], [3], [3], [3]⟩
    ∧ ([7] : List Nat) ≠ [3] :=
  ⟨rfl, rfl, by decide⟩

theorem batchNorm_default_axes_witness :
    (∀ d ∈ bnParamDims [some 3, some 4, some 5], d.isSome = true)
    ∧ batchNormSetup none BNParam.init BNParam.init [some 3, some 4, some 5]
        = Except.ok ⟨[0, 2, 3], [3], [3], [3], [3]⟩
    ∧ (∃ d ∈ bnParamDims [none, some 4], d = none)
    ∧ batchNormSetup none (BNParam.array [9]) BNParam.init [none, some 4]
        = Except.error PyError.valueError :=
  ⟨by decide,
    (batchNorm_default_axes BNParam.init BNParam.init
      [some 3, some 4, some 5]).2.2.1 (by decide),
    by decide,
    (batchNorm_default_axes (BNParam.array [9]) BNParam.init
      [none, some 4]).2.2.2 (by decide)⟩

end Neupy
